import Mathlib

/-!
Shallow embedding of `src/neuron_init.py` (an MRG-style myelinated fiber
builder with a bisection threshold search).

Conventions of the embedding:
* NEURON section parameters that the script sets with float literals are
  carried as exact rationals (`ℚ`); compartment lengths, which involve
  `diam ** 0.5`, live in `ℝ` with `Real.sqrt`.
* A NEURON section name such as `f'node_{i}'` is modelled as the pair
  `(Role.node, i)`; `sec.connect(parent(1.0))` (child end 0 attached to the
  parent position 1.0) is modelled by a `Connection` record.
* The external solver (`h.run` et al.) is out of scope; a trial is modelled
  by an oracle `sim : SimSpec → List ℚ` mapping the full description of a
  run (stimulated node, scaled waveform, stop time, step, initial potential,
  recorded node) to the recorded voltage trace.
-/

namespace NeuronInit

/-- Constant `DT = 0.025` ms, the fixed simulation step of the script. -/
def DT : ℚ := 0.025

/-- Constant `DEFAULT_RA = 70.0` ohm*cm. -/
def DEFAULT_RA : ℚ := 70.0

/-- Constant `CM_NODE = 1.0` uF/cm2. -/
def CM_NODE : ℚ := 1.0

/-- Constant `CM_INTERNODE = 0.02` uF/cm2 (reduced to simulate myelin). -/
def CM_INTERNODE : ℚ := 0.02

/-- Constant `E_LEAK = -80.0` mV. -/
def E_LEAK : ℚ := -80.0

/-- Constant `G_NA_BAR = 0.18` S/cm2. -/
def G_NA_BAR : ℚ := 0.18

/-- Constant `G_K_BAR = 0.036` S/cm2. -/
def G_K_BAR : ℚ := 0.036

/-- Constant `G_LEAK_NODE = 0.0003` S/cm2. -/
def G_LEAK_NODE : ℚ := 0.0003

/-- Constant `G_PAS_INTERN = 1e-5` S/cm2. -/
def G_PAS_INTERN : ℚ := 1e-5

/-- Geometry rule `internode_length_from_diam(diam_um) = max(50.0, 100.0 * diam_um)`. -/
noncomputable def internode_length_from_diam (diam_um : ℚ) : ℝ :=
  max 50.0 (100.0 * (diam_um : ℝ))

/-- Geometry rule `node_length_um() = 1.0`. -/
noncomputable def node_length_um : ℝ := 1.0

/-- Geometry rule `paranode_length_um(diam_um) = max(1.0, 3.0 * diam_um**0.5)`. -/
noncomputable def paranode_length_um (diam_um : ℚ) : ℝ :=
  max 1.0 (3.0 * Real.sqrt (diam_um : ℝ))

/-- Geometry rule `juxta_length_um(diam_um) = max(5.0, 10.0 * diam_um**0.5)`. -/
noncomputable def juxta_length_um (diam_um : ℚ) : ℝ :=
  max 5.0 (10.0 * Real.sqrt (diam_um : ℝ))

/-- The membrane mechanism inserted into a section: `hh` (with the four
conductance/reversal assignments of the script) or `pas`. -/
inductive Mechanism
  | hh (gnabar gkbar gl el : ℚ)
  | pas (g_pas e_pas : ℚ)
deriving DecidableEq

/-- Which of the four repeating section kinds a section is. -/
inductive Role
  | node
  | paranode
  | juxta
  | intern
deriving DecidableEq

/-- One NEURON `h.Section`, with the parameters the script assigns.
The section name `f'node_{i}'` is modelled as `role = Role.node, idx = i`. -/
structure Compartment where
  role : Role
  idx : ℕ
  L : ℝ
  diam : ℚ
  Ra : ℚ
  nseg : ℕ
  cm : ℚ
  mech : Mechanism

/-- One `child.connect(parent(parentEnd))` call: the child section's
`childEnd` (NEURON default 0, the proximal end) is attached to the parent
section at relative position `parentEnd` (the script always uses 1.0, the
distal end). -/
structure Connection where
  child : Role × ℕ
  childEnd : ℚ
  parent : Role × ℕ
  parentEnd : ℚ
deriving DecidableEq

/-- The fiber dict returned by `make_MRG_fiber`, extended with the explicit
list of `connect` calls the builder performed. -/
structure Fiber where
  nodes : List Compartment
  paranos : List Compartment
  juxtas : List Compartment
  interns : List Compartment
  connections : List Connection
  mid_idx : ℕ

/-- The node section built at loop index `i`. -/
noncomputable def mkNode (diam_um : ℚ) (i : ℕ) : Compartment :=
  { role := Role.node, idx := i, L := node_length_um, diam := diam_um,
    Ra := DEFAULT_RA, nseg := 1, cm := CM_NODE,
    mech := Mechanism.hh G_NA_BAR G_K_BAR G_LEAK_NODE E_LEAK }

/-- The paranode section built at loop index `i`. -/
noncomputable def mkParanode (diam_um : ℚ) (i : ℕ) : Compartment :=
  { role := Role.paranode, idx := i, L := paranode_length_um diam_um,
    diam := diam_um, Ra := DEFAULT_RA, nseg := 1, cm := CM_INTERNODE,
    mech := Mechanism.pas G_PAS_INTERN E_LEAK }

/-- The juxtaparanode section built at loop index `i`. -/
noncomputable def mkJuxta (diam_um : ℚ) (i : ℕ) : Compartment :=
  { role := Role.juxta, idx := i, L := juxta_length_um diam_um,
    diam := diam_um, Ra := DEFAULT_RA, nseg := 1, cm := CM_INTERNODE,
    mech := Mechanism.pas G_PAS_INTERN E_LEAK }

/-- The internode section built at loop index `i`. -/
noncomputable def mkIntern (diam_um : ℚ) (i : ℕ) : Compartment :=
  { role := Role.intern, idx := i, L := internode_length_from_diam diam_um,
    diam := diam_um, Ra := DEFAULT_RA, nseg := 1, cm := CM_INTERNODE,
    mech := Mechanism.pas G_PAS_INTERN E_LEAK }

/-- The four `connect` calls of one pass of the wiring loop
(`for i in range(len(nodes)-1)`):
`paranos[i].connect(nodes[i](1.0))`, `juxtas[i].connect(paranos[i](1.0))`,
`interns[i].connect(juxtas[i](1.0))`, `nodes[i+1].connect(interns[i](1.0))`. -/
def connGroup (i : ℕ) : List Connection :=
  [ { child := (Role.paranode, i), childEnd := 0, parent := (Role.node, i), parentEnd := 1 },
    { child := (Role.juxta, i), childEnd := 0, parent := (Role.paranode, i), parentEnd := 1 },
    { child := (Role.intern, i), childEnd := 0, parent := (Role.juxta, i), parentEnd := 1 },
    { child := (Role.node, i + 1), childEnd := 0, parent := (Role.intern, i), parentEnd := 1 } ]

/-- Builder `make_MRG_fiber(diam_um, n_nodes)`: the section-building loop runs
`n_nodes` times, the three non-node sections being built only while
`i < n_nodes - 1`; the wiring loop runs `len(nodes) - 1` times; the dict
records the lists and `mid_idx = len(nodes)//2`. -/
noncomputable def make_MRG_fiber (diam_um : ℚ) (n_nodes : ℕ) : Fiber :=
  { nodes := (List.range n_nodes).map (mkNode diam_um),
    paranos := (List.range (n_nodes - 1)).map (mkParanode diam_um),
    juxtas := (List.range (n_nodes - 1)).map (mkJuxta diam_um),
    interns := (List.range (n_nodes - 1)).map (mkIntern diam_um),
    connections :=
      (List.range (((List.range n_nodes).map (mkNode diam_um)).length - 1)).flatMap connGroup,
    mid_idx := ((List.range n_nodes).map (mkNode diam_um)).length / 2 }

/-- The `IClamp` configured by `attach_vector_stim`: placed at
`node_section(0.5)` with `delay = 0` and `dur = 1e9`. -/
structure IClampRec where
  loc : ℚ
  delay : ℚ
  dur : ℚ
deriving DecidableEq

/-- The `(stim, vt, vi)` triple returned by `attach_vector_stim`, which the
caller keeps to hold the references alive. -/
structure StimHandle where
  sec : Compartment
  stim : IClampRec
  vt : List ℚ
  vi : List ℚ

/-- Function `attach_vector_stim(node_section, tvec_ms, ivec_nA)`: creates the clamp
at position 0.5 with delay 0 and duration 1e9, copies both sample vectors,
and returns the handle.  The source performs no validation of the inputs. -/
def attach_vector_stim (node_section : Compartment) (tvec_ms ivec_nA : List ℚ) : StimHandle :=
  { sec := node_section,
    stim := { loc := 0.5, delay := 0, dur := 1e9 },
    vt := tvec_ms,
    vi := ivec_nA }

/-- Everything that determines one solver run in `test_scale`/`run_sim`:
the stimulated node index, the waveform played into the clamp, the stop
time, the step `h.dt`, the `h.finitialize` argument, and the recorded node
index.  The external solver is the oracle `SimSpec → List ℚ` producing the
recorded voltage trace. -/
structure SimSpec where
  stim_idx : ℕ
  tvec : List ℚ
  ivec : List ℚ
  tstop : ℚ
  dt : ℚ
  v_init : ℚ
  rec_idx : ℕ

/-- Value `Vm.max()` of the recorded trace (`np.max`; the script only evaluates it
on nonempty traces, the empty case is given the junk value 0). -/
def trace_max (Vm : List ℚ) : ℚ := Vm.foldl max (Vm.headD 0)

/-- The firing classification of `test_scale`: `Vm.max() > 0.0`. -/
def fires_of_trace (Vm : List ℚ) : Bool := decide (0 < trace_max Vm)

/-- Function `test_scale(s)` as a function of the solver oracle: attach the waveform
`base_waveform_nA * s` at `nodes[mid]`, run to `tvec_ms[-1] + 5.0` at step
`DT` from `finitialize(E_LEAK)`, record at `rec_idx`, and classify the
trace. -/
def test_scale (sim : SimSpec → List ℚ) (fiber : Fiber) (tvec_ms base_waveform_nA : List ℚ)
    (rec_idx : ℕ) (s : ℚ) : Bool :=
  fires_of_trace (sim
    { stim_idx := fiber.mid_idx,
      tvec := tvec_ms,
      ivec := base_waveform_nA.map (fun x => x * s),
      tstop := tvec_ms.getLastD 0 + 5.0,
      dt := DT,
      v_init := E_LEAK,
      rec_idx := rec_idx })

/-- Resolution `rec_idx = record_node_index if record_node_index is not None else
(len(nodes)-1)`. -/
def default_rec_idx (fiber : Fiber) (record_node_index : Option ℕ) : ℕ :=
  record_node_index.getD (fiber.nodes.length - 1)

/-- The `fires` predicate `find_threshold` closes over: `test_scale` at the
resolved recording index. -/
def fiber_fires (sim : SimSpec → List ℚ) (fiber : Fiber) (tvec_ms base_waveform_nA : List ℚ)
    (record_node_index : Option ℕ) : ℚ → Bool :=
  test_scale sim fiber tvec_ms base_waveform_nA (default_rec_idx fiber record_node_index)

/-- One pass of the bisection loop body: `mid_s = 0.5*(lo+hi)`; if
`test_scale(mid_s)` then `hi = mid_s` else `lo = mid_s`. -/
def bisect_step (fires : ℚ → Bool) (s : ℚ × ℚ) : ℚ × ℚ :=
  if fires ((s.1 + s.2) / 2) then (s.1, (s.1 + s.2) / 2) else ((s.1 + s.2) / 2, s.2)

/-- The `for it in range(max_iters)` loop of `find_threshold`, returning the
final `(lo, hi)` pair: after each update the loop breaks once
`(hi - lo) < tol`. -/
def bisect_loop (fires : ℚ → Bool) (tol : ℚ) : ℕ → ℚ × ℚ → ℚ × ℚ
  | 0, s => s
  | k + 1, s =>
    if (bisect_step fires s).2 - (bisect_step fires s).1 < tol then bisect_step fires s
    else bisect_loop fires tol k (bisect_step fires s)

/-- The number of loop-body executions `bisect_loop` performs before
returning (0 when the fuel is 0, otherwise counting up to the `break`). -/
def bisect_iters (fires : ℚ → Bool) (tol : ℚ) : ℕ → ℚ × ℚ → ℕ
  | 0, _ => 0
  | k + 1, s =>
    if (bisect_step fires s).2 - (bisect_step fires s).1 < tol then 1
    else 1 + bisect_iters fires tol k (bisect_step fires s)

/-- Function `find_threshold(fiber, tvec_ms, base_waveform_nA, scale_lo, scale_hi,
tol, max_iters, record_node_index)`: `None` when `test_scale(scale_hi)`
fails, `scale_lo` when `test_scale(scale_lo)` fires, otherwise the `hi`
component of the bisection loop's final state. -/
def find_threshold (sim : SimSpec → List ℚ) (fiber : Fiber)
    (tvec_ms base_waveform_nA : List ℚ) (scale_lo scale_hi tol : ℚ) (max_iters : ℕ)
    (record_node_index : Option ℕ) : Option ℚ :=
  if fiber_fires sim fiber tvec_ms base_waveform_nA record_node_index scale_hi = false then
    none
  else if fiber_fires sim fiber tvec_ms base_waveform_nA record_node_index scale_lo = true then
    some scale_lo
  else
    some (bisect_loop (fiber_fires sim fiber tvec_ms base_waveform_nA record_node_index)
      tol max_iters (scale_lo, scale_hi)).2

/-- The identities of the compartments of an `n`-node fiber in anatomical
order, starting at node `i` and spanning `k` node-to-node groups. -/
def chainFrom (i : ℕ) : ℕ → List (Role × ℕ)
  | 0 => [(Role.node, i)]
  | k + 1 =>
    (Role.node, i) :: (Role.paranode, i) :: (Role.juxta, i) :: (Role.intern, i) ::
      chainFrom (i + 1) k

/-- The full anatomical chain of an `n`-node fiber:
`node_0, paranode_0, juxta_0, intern_0, node_1, ..., node_{n-1}`. -/
def chainIds (n : ℕ) : List (Role × ℕ) := chainFrom 0 (n - 1)

/-- Consecutive pairs of a list: `adjPairs [a, b, c] = [(a, b), (b, c)]`. -/
def adjPairs {α : Type} : List α → List (α × α)
  | a :: b :: rest => (a, b) :: adjPairs (b :: rest)
  | _ => []

/-- A fiber record with no compartments, used to exercise the search with a
synthetic solver oracle. -/
def trivialFiber : Fiber :=
  { nodes := [], paranos := [], juxtas := [], interns := [],
    connections := [], mid_idx := 0 }

/-- A synthetic solver oracle: the trace peaks above 0 mV exactly when the
played current vector's first sample reaches 1 nA. -/
def stepSim : SimSpec → List ℚ :=
  fun sp => if 1 ≤ sp.ivec.headD 0 then [1] else [-80]

/-- One bisection update halves the bracket width exactly. -/
lemma bisect_step_width (fires : ℚ → Bool) (s : ℚ × ℚ) :
    (bisect_step fires s).2 - (bisect_step fires s).1 = (s.2 - s.1) / 2 := by
  unfold bisect_step
  split <;> simp <;> ring

/-- One bisection update keeps `fires hi = true`. -/
lemma bisect_step_fires_snd (fires : ℚ → Bool) (s : ℚ × ℚ) (h : fires s.2 = true) :
    fires (bisect_step fires s).2 = true := by
  unfold bisect_step
  split
  next hm => simpa using hm
  next hm => simpa using h

/-- The loop is the `bisect_iters`-fold iterate of the loop body. -/
lemma bisect_loop_eq_iterate (fires : ℚ → Bool) (tol : ℚ) :
    ∀ (k : ℕ) (s : ℚ × ℚ),
      bisect_loop fires tol k s = (bisect_step fires)^[bisect_iters fires tol k s] s := by
  intro k
  induction k with
  | zero => intro s; rfl
  | succ k ih =>
    intro s
    by_cases h : (bisect_step fires s).2 - (bisect_step fires s).1 < tol
    · simp [bisect_loop, bisect_iters, h]
    · simp only [bisect_loop, bisect_iters, if_neg h]
      rw [ih, Nat.add_comm, Function.iterate_succ_apply]

/-- The loop executes at most `max_iters` iterations. -/
lemma bisect_iters_le (fires : ℚ → Bool) (tol : ℚ) :
    ∀ (k : ℕ) (s : ℚ × ℚ), bisect_iters fires tol k s ≤ k := by
  intro k
  induction k with
  | zero => intro s; exact le_rfl
  | succ k ih =>
    intro s
    by_cases h : (bisect_step fires s).2 - (bisect_step fires s).1 < tol
    · simp only [bisect_iters, if_pos h]
      omega
    · simp only [bisect_iters, if_neg h]
      have := ih (bisect_step fires s)
      omega

/-- At exit the bracket width is below `tol` (early break) or is the initial
width halved once per fuel unit. -/
lemma bisect_loop_width (fires : ℚ → Bool) (tol : ℚ) :
    ∀ (k : ℕ) (s : ℚ × ℚ),
      (bisect_loop fires tol k s).2 - (bisect_loop fires tol k s).1 < tol ∨
        (bisect_loop fires tol k s).2 - (bisect_loop fires tol k s).1 = (s.2 - s.1) / 2 ^ k := by
  intro k
  induction k with
  | zero => intro s; right; simp [bisect_loop]
  | succ k ih =>
    intro s
    by_cases h : (bisect_step fires s).2 - (bisect_step fires s).1 < tol
    · left
      simpa only [bisect_loop, if_pos h] using h
    · simp only [bisect_loop, if_neg h]
      rcases ih (bisect_step fires s) with hlt | heq
      · exact Or.inl hlt
      · right
        rw [heq, bisect_step_width]
        ring

/-- The loop preserves `fires hi = true`. -/
lemma bisect_loop_fires_snd (fires : ℚ → Bool) (tol : ℚ) :
    ∀ (k : ℕ) (s : ℚ × ℚ), fires s.2 = true → fires (bisect_loop fires tol k s).2 = true := by
  intro k
  induction k with
  | zero => intro s h; exact h
  | succ k ih =>
    intro s h
    by_cases hb : (bisect_step fires s).2 - (bisect_step fires s).1 < tol
    · simp only [bisect_loop, if_pos hb]
      exact bisect_step_fires_snd fires s h
    · simp only [bisect_loop, if_neg hb]
      exact ih (bisect_step fires s) (bisect_step_fires_snd fires s h)

/-- The loop body preserves the search-state invariant. -/
lemma bisect_step_invariant (fires : ℚ → Bool) (s : ℚ × ℚ)
    (hlo : fires s.1 = false) (hhi : fires s.2 = true) (hlt : s.1 < s.2) :
    fires (bisect_step fires s).1 = false ∧ fires (bisect_step fires s).2 = true ∧
      (bisect_step fires s).1 < (bisect_step fires s).2 := by
  unfold bisect_step
  split
  next hm => exact ⟨hlo, hm, by simp only; linarith⟩
  next hm =>
    simp only [Bool.not_eq_true] at hm
    exact ⟨hm, hhi, by simp only; linarith⟩

/-- The search-state invariant holds at every iterate of the loop body. -/
lemma bisect_iterate_invariant (fires : ℚ → Bool) (s : ℚ × ℚ)
    (hlo : fires s.1 = false) (hhi : fires s.2 = true) (hlt : s.1 < s.2) :
    ∀ m : ℕ,
      fires ((bisect_step fires)^[m] s).1 = false ∧
      fires ((bisect_step fires)^[m] s).2 = true ∧
      ((bisect_step fires)^[m] s).1 < ((bisect_step fires)^[m] s).2 := by
  intro m
  induction m with
  | zero => exact ⟨hlo, hhi, hlt⟩
  | succ m ih =>
    rw [Function.iterate_succ_apply']
    exact bisect_step_invariant fires _ ih.1 ih.2.1 ih.2.2

/-- If the loop returns before its fuel runs out, the final width is below
`tol`. -/
lemma bisect_iters_lt_fuel (fires : ℚ → Bool) (tol : ℚ) :
    ∀ (k : ℕ) (s : ℚ × ℚ), bisect_iters fires tol k s < k →
      ((bisect_step fires)^[bisect_iters fires tol k s] s).2 -
        ((bisect_step fires)^[bisect_iters fires tol k s] s).1 < tol := by
  intro k
  induction k with
  | zero => intro s h; simp [bisect_iters] at h
  | succ k ih =>
    intro s h
    by_cases hb : (bisect_step fires s).2 - (bisect_step fires s).1 < tol
    · simp only [bisect_iters, if_pos hb]
      simpa [Function.iterate_one] using hb
    · simp only [bisect_iters, if_neg hb] at h ⊢
      rw [Nat.add_comm, Function.iterate_succ_apply]
      exact ih (bisect_step fires s) (by omega)

/-- Before the iteration at which the loop stops, the width check never
fires: the loop stops as soon as the width drops below `tol`. -/
lemma bisect_no_early_stop (fires : ℚ → Bool) (tol : ℚ) :
    ∀ (k : ℕ) (s : ℚ × ℚ) (m : ℕ), 0 < m → m < bisect_iters fires tol k s →
      ¬ (((bisect_step fires)^[m] s).2 - ((bisect_step fires)^[m] s).1 < tol) := by
  intro k
  induction k with
  | zero => intro s m hm hlt; simp [bisect_iters] at hlt
  | succ k ih =>
    intro s m hm hlt
    by_cases hb : (bisect_step fires s).2 - (bisect_step fires s).1 < tol
    · simp only [bisect_iters, if_pos hb] at hlt
      omega
    · simp only [bisect_iters, if_neg hb] at hlt
      rcases m with _ | m
      · omega
      rcases Nat.eq_zero_or_pos m with rfl | hm0
      · simpa [Function.iterate_one] using hb
      · rw [Function.iterate_succ_apply]
        exact ih (bisect_step fires s) m hm0 (by omega)

/-- With a valid bracket `find_threshold` takes the loop branch and returns
the `hi` component of the loop's final state. -/
lemma find_threshold_loop_case (sim : SimSpec → List ℚ) (fiber : Fiber)
    (tvec_ms base_waveform_nA : List ℚ) (scale_lo scale_hi tol : ℚ) (max_iters : ℕ)
    (record_node_index : Option ℕ)
    (hhi : fiber_fires sim fiber tvec_ms base_waveform_nA record_node_index scale_hi = true)
    (hlo : fiber_fires sim fiber tvec_ms base_waveform_nA record_node_index scale_lo = false) :
    find_threshold sim fiber tvec_ms base_waveform_nA scale_lo scale_hi tol max_iters
        record_node_index =
      some (bisect_loop (fiber_fires sim fiber tvec_ms base_waveform_nA record_node_index)
        tol max_iters (scale_lo, scale_hi)).2 := by
  unfold find_threshold
  rw [hhi, hlo]
  simp

/-- C1: with a valid bracket (`fires scale_hi` true, `fires scale_lo` false),
`find_threshold` runs its loop for `bisect_iters ≤ max_iterations` body
executions, each body execution being `bisect_step` (set `mid = (lo+hi)/2`,
then `hi = mid` if `fires mid` else `lo = mid`), never continuing past an
iteration whose updated bracket has `hi - lo < tolerance` (and stopping
before the fuel runs out only for that reason), and returns the final `hi`. -/
theorem find_threshold_bisection_algorithm (sim : SimSpec → List ℚ) (fiber : Fiber)
    (tvec_ms base_waveform_nA : List ℚ) (scale_lo scale_hi tol : ℚ) (max_iters : ℕ)
    (record_node_index : Option ℕ) (fires : ℚ → Bool)
    (hF : fires = fiber_fires sim fiber tvec_ms base_waveform_nA record_node_index)
    (hhi : fires scale_hi = true) (hlo : fires scale_lo = false) :
    bisect_iters fires tol max_iters (scale_lo, scale_hi) ≤ max_iters ∧
    find_threshold sim fiber tvec_ms base_waveform_nA scale_lo scale_hi tol max_iters
        record_node_index =
      some (((bisect_step fires)^[bisect_iters fires tol max_iters (scale_lo, scale_hi)]
        (scale_lo, scale_hi)).2) ∧
    (∀ lo hi : ℚ, bisect_step fires (lo, hi) =
      if fires ((lo + hi) / 2) = true then (lo, (lo + hi) / 2) else ((lo + hi) / 2, hi)) ∧
    (∀ m : ℕ, 0 < m → m < bisect_iters fires tol max_iters (scale_lo, scale_hi) →
      ¬ (((bisect_step fires)^[m] (scale_lo, scale_hi)).2 -
          ((bisect_step fires)^[m] (scale_lo, scale_hi)).1 < tol)) ∧
    (bisect_iters fires tol max_iters (scale_lo, scale_hi) < max_iters →
      ((bisect_step fires)^[bisect_iters fires tol max_iters (scale_lo, scale_hi)]
          (scale_lo, scale_hi)).2 -
        ((bisect_step fires)^[bisect_iters fires tol max_iters (scale_lo, scale_hi)]
          (scale_lo, scale_hi)).1 < tol) := by
  subst hF
  refine ⟨bisect_iters_le _ tol max_iters _, ?_, fun lo hi => rfl,
    bisect_no_early_stop _ tol max_iters _, bisect_iters_lt_fuel _ tol max_iters _⟩
  rw [find_threshold_loop_case sim fiber tvec_ms base_waveform_nA scale_lo scale_hi tol
    max_iters record_node_index hhi hlo, bisect_loop_eq_iterate]

/-- C1 witness: the synthetic oracle gives `fires s` iff `1 ≤ s`; with
bracket (0, 2), tolerance 1 and 2 iterations the search returns 1. -/
theorem find_threshold_bisection_algorithm_witness :
    fiber_fires stepSim trivialFiber [0] [1] none 2 = true ∧
    fiber_fires stepSim trivialFiber [0] [1] none 0 = false ∧
    bisect_iters (fiber_fires stepSim trivialFiber [0] [1] none) 1 2 (0, 2) ≤ 2 ∧
    find_threshold stepSim trivialFiber [0] [1] 0 2 1 2 none = some 1 := by
  have h := find_threshold_bisection_algorithm stepSim trivialFiber [0] [1] 0 2 1 2 none
    (fiber_fires stepSim trivialFiber [0] [1] none) rfl
    (by norm_num [fiber_fires, test_scale, default_rec_idx, trivialFiber, stepSim,
      fires_of_trace, trace_max, DT, E_LEAK])
    (by norm_num [fiber_fires, test_scale, default_rec_idx, trivialFiber, stepSim,
      fires_of_trace, trace_max, DT, E_LEAK])
  refine ⟨by norm_num [fiber_fires, test_scale, default_rec_idx, trivialFiber, stepSim,
      fires_of_trace, trace_max, DT, E_LEAK],
    by norm_num [fiber_fires, test_scale, default_rec_idx, trivialFiber, stepSim,
      fires_of_trace, trace_max, DT, E_LEAK], h.1, ?_⟩
  rw [h.2.1]
  norm_num [fiber_fires, test_scale, default_rec_idx, trivialFiber, stepSim,
    fires_of_trace, trace_max, bisect_iters, bisect_step, DT, E_LEAK,
    Function.iterate_succ_apply, Function.iterate_zero_apply]

/-- C2 counterexample: for the valid bracket (0, 8) with `fires s` iff
`1 ≤ s`, tolerance 1/10 and `max_iterations = 1`, the single iteration
leaves the final bracket (0, 4) and the search returns 4, so the returned
`hi` does NOT satisfy `hi - lo ≤ tolerance` at termination. -/
theorem find_threshold_tolerance_counterexample :
    fiber_fires stepSim trivialFiber [0] [1] none 8 = true ∧
    fiber_fires stepSim trivialFiber [0] [1] none 0 = false ∧
    (0:ℚ) < 1/10 ∧
    find_threshold stepSim trivialFiber [0] [1] 0 8 (1/10) 1 none = some 4 ∧
    bisect_loop (fiber_fires stepSim trivialFiber [0] [1] none) (1/10) 1 (0, 8) = (0, 4) ∧
    ¬ ((4:ℚ) - 0 ≤ 1/10) := by
  refine ⟨?_, ?_, by norm_num, ?_, ?_, by norm_num⟩ <;>
    norm_num [find_threshold, fiber_fires, test_scale, default_rec_idx, trivialFiber, stepSim,
      fires_of_trace, trace_max, bisect_loop, bisect_step, DT, E_LEAK]

/-- C2 (amended): with a valid bracket, `find_threshold` returns the final
`hi`, which always satisfies `fires hi = true`; the tolerance guarantee
`hi - lo ≤ tolerance` at termination holds provided `max_iterations`
suffices, i.e. `scale_hi - scale_lo < tolerance * 2 ^ max_iterations`
(the counterexample shows it fails for smaller `max_iterations`). -/
theorem find_threshold_convergence_amended (sim : SimSpec → List ℚ) (fiber : Fiber)
    (tvec_ms base_waveform_nA : List ℚ) (scale_lo scale_hi tol : ℚ) (max_iters : ℕ)
    (record_node_index : Option ℕ) (fires : ℚ → Bool)
    (hF : fires = fiber_fires sim fiber tvec_ms base_waveform_nA record_node_index)
    (hhi : fires scale_hi = true) (hlo : fires scale_lo = false)
    (htol : 0 < tol) :
    find_threshold sim fiber tvec_ms base_waveform_nA scale_lo scale_hi tol max_iters
        record_node_index =
      some (bisect_loop fires tol max_iters (scale_lo, scale_hi)).2 ∧
    fires (bisect_loop fires tol max_iters (scale_lo, scale_hi)).2 = true ∧
    (scale_hi - scale_lo < tol * 2 ^ max_iters →
      (bisect_loop fires tol max_iters (scale_lo, scale_hi)).2 -
          (bisect_loop fires tol max_iters (scale_lo, scale_hi)).1 ≤ tol) := by
  subst hF
  refine ⟨find_threshold_loop_case sim fiber tvec_ms base_waveform_nA scale_lo scale_hi tol
      max_iters record_node_index hhi hlo,
    bisect_loop_fires_snd _ tol max_iters (scale_lo, scale_hi) hhi, ?_⟩
  intro hk
  rcases bisect_loop_width (fiber_fires sim fiber tvec_ms base_waveform_nA record_node_index)
      tol max_iters (scale_lo, scale_hi) with hlt | heq
  · exact le_of_lt hlt
  · rw [heq]
    show (scale_hi - scale_lo) / 2 ^ max_iters ≤ tol
    rw [div_le_iff₀ (by positivity : (0:ℚ) < 2 ^ max_iters)]
    exact le_of_lt hk

/-- C2 witness: bracket (0, 2), tolerance 1, 2 iterations; the search
returns 1; the predicate fires at 1 and the final width 1/2 is within the
tolerance. -/
theorem find_threshold_convergence_amended_witness :
    fiber_fires stepSim trivialFiber [0] [1] none 2 = true ∧
    fiber_fires stepSim trivialFiber [0] [1] none 0 = false ∧
    (0:ℚ) < 1 ∧ (2:ℚ) - 0 < 1 * 2 ^ 2 ∧
    find_threshold stepSim trivialFiber [0] [1] 0 2 1 2 none = some 1 ∧
    fiber_fires stepSim trivialFiber [0] [1] none 1 = true ∧
    (1:ℚ) - 1/2 ≤ 1 := by
  have h := find_threshold_convergence_amended stepSim trivialFiber [0] [1] 0 2 1 2 none
    (fiber_fires stepSim trivialFiber [0] [1] none) rfl
    (by norm_num [fiber_fires, test_scale, default_rec_idx, trivialFiber, stepSim,
      fires_of_trace, trace_max, DT, E_LEAK])
    (by norm_num [fiber_fires, test_scale, default_rec_idx, trivialFiber, stepSim,
      fires_of_trace, trace_max, DT, E_LEAK])
    (by norm_num)
  have hloop : bisect_loop (fiber_fires stepSim trivialFiber [0] [1] none) 1 2 (0, 2) =
      (1/2, 1) := by
    norm_num [fiber_fires, test_scale, default_rec_idx, trivialFiber, stepSim,
      fires_of_trace, trace_max, bisect_loop, bisect_step, DT, E_LEAK]
  refine ⟨by norm_num [fiber_fires, test_scale, default_rec_idx, trivialFiber, stepSim,
      fires_of_trace, trace_max, DT, E_LEAK],
    by norm_num [fiber_fires, test_scale, default_rec_idx, trivialFiber, stepSim,
      fires_of_trace, trace_max, DT, E_LEAK],
    by norm_num, by norm_num, ?_, ?_, ?_⟩
  · rw [h.1, hloop]
  · have h2 := h.2.1
    rwa [hloop] at h2
  · have h2 := h.2.2 (by norm_num)
    rw [hloop] at h2
    exact h2

/-- C3: `find_threshold` returns the `None` sentinel whenever
`fires scale_hi` is false (never a numeric scale), and returns `scale_lo`
immediately whenever both `fires scale_hi` and `fires scale_lo` are true. -/
theorem find_threshold_bracket_guards (sim : SimSpec → List ℚ) (fiber : Fiber)
    (tvec_ms base_waveform_nA : List ℚ) (scale_lo scale_hi tol : ℚ) (max_iters : ℕ)
    (record_node_index : Option ℕ) :
    (fiber_fires sim fiber tvec_ms base_waveform_nA record_node_index scale_hi = false →
      find_threshold sim fiber tvec_ms base_waveform_nA scale_lo scale_hi tol max_iters
        record_node_index = none) ∧
    (fiber_fires sim fiber tvec_ms base_waveform_nA record_node_index scale_hi = true →
      fiber_fires sim fiber tvec_ms base_waveform_nA record_node_index scale_lo = true →
      find_threshold sim fiber tvec_ms base_waveform_nA scale_lo scale_hi tol max_iters
        record_node_index = some scale_lo) := by
  constructor
  · intro h
    unfold find_threshold
    rw [h]
    simp
  · intro h1 h2
    unfold find_threshold
    rw [h1, h2]
    simp

/-- C3 witness: with `fires s` iff `1 ≤ s`, an upper bound of 1/2 yields
the sentinel `none`, and a bracket whose lower bound 1 already fires
returns `some 1` immediately. -/
theorem find_threshold_bracket_guards_witness :
    (fiber_fires stepSim trivialFiber [0] [1] none (1/2) = false ∧
      find_threshold stepSim trivialFiber [0] [1] 0 (1/2) (1/10) 5 none = none) ∧
    (fiber_fires stepSim trivialFiber [0] [1] none 2 = true ∧
      fiber_fires stepSim trivialFiber [0] [1] none 1 = true ∧
      find_threshold stepSim trivialFiber [0] [1] 1 2 (1/10) 5 none = some 1) := by
  constructor
  · refine ⟨?_, (find_threshold_bracket_guards stepSim trivialFiber [0] [1] 0 (1/2) (1/10)
      5 none).1 ?_⟩ <;>
      norm_num [fiber_fires, test_scale, default_rec_idx, trivialFiber, stepSim,
        fires_of_trace, trace_max, DT, E_LEAK]
  · refine ⟨?_, ?_, (find_threshold_bracket_guards stepSim trivialFiber [0] [1] 1 2 (1/10)
      5 none).2 ?_ ?_⟩ <;>
      norm_num [fiber_fires, test_scale, default_rec_idx, trivialFiber, stepSim,
        fires_of_trace, trace_max, DT, E_LEAK]

/-- C4: given the valid-bracket precondition (`fires scale_hi` true,
`fires scale_lo` false, `scale_lo < scale_hi`), the loop of
`find_threshold` is the iterate of `bisect_step`, and at every iterate the
search-state invariant holds: `fires lo` is false, `fires hi` is true,
`lo < hi`, and the width `hi - lo` strictly decreases at the next
iteration. -/
theorem bisection_loop_invariant (sim : SimSpec → List ℚ) (fiber : Fiber)
    (tvec_ms base_waveform_nA : List ℚ) (scale_lo scale_hi : ℚ)
    (record_node_index : Option ℕ) (fires : ℚ → Bool)
    (hF : fires = fiber_fires sim fiber tvec_ms base_waveform_nA record_node_index)
    (hhi : fires scale_hi = true) (hlo : fires scale_lo = false)
    (hbr : scale_lo < scale_hi) :
    (∀ (tol : ℚ) (max_iters : ℕ),
      bisect_loop fires tol max_iters (scale_lo, scale_hi) =
        (bisect_step fires)^[bisect_iters fires tol max_iters (scale_lo, scale_hi)]
          (scale_lo, scale_hi)) ∧
    (∀ m : ℕ,
      fires ((bisect_step fires)^[m] (scale_lo, scale_hi)).1 = false ∧
      fires ((bisect_step fires)^[m] (scale_lo, scale_hi)).2 = true ∧
      ((bisect_step fires)^[m] (scale_lo, scale_hi)).1 <
        ((bisect_step fires)^[m] (scale_lo, scale_hi)).2 ∧
      ((bisect_step fires)^[m + 1] (scale_lo, scale_hi)).2 -
          ((bisect_step fires)^[m + 1] (scale_lo, scale_hi)).1 <
        ((bisect_step fires)^[m] (scale_lo, scale_hi)).2 -
          ((bisect_step fires)^[m] (scale_lo, scale_hi)).1) := by
  constructor
  · intro tol max_iters
    exact bisect_loop_eq_iterate fires tol max_iters (scale_lo, scale_hi)
  · intro m
    have hinv := bisect_iterate_invariant fires (scale_lo, scale_hi) hlo hhi hbr m
    refine ⟨hinv.1, hinv.2.1, hinv.2.2, ?_⟩
    rw [Function.iterate_succ_apply', bisect_step_width]
    have hw : 0 < ((bisect_step fires)^[m] (scale_lo, scale_hi)).2 -
        ((bisect_step fires)^[m] (scale_lo, scale_hi)).1 := by
      have := hinv.2.2
      linarith
    linarith

/-- C4 witness: bracket (0, 2) with `fires s` iff `1 ≤ s`; the invariant
facts are instantiated at the loop (tolerance 1, fuel 2) and at iterate 1. -/
theorem bisection_loop_invariant_witness :
    fiber_fires stepSim trivialFiber [0] [1] none 2 = true ∧
    fiber_fires stepSim trivialFiber [0] [1] none 0 = false ∧
    (0:ℚ) < 2 ∧
    bisect_loop (fiber_fires stepSim trivialFiber [0] [1] none) 1 2 (0, 2) =
      (bisect_step (fiber_fires stepSim trivialFiber [0] [1] none))^[
        bisect_iters (fiber_fires stepSim trivialFiber [0] [1] none) 1 2 (0, 2)] (0, 2) ∧
    fiber_fires stepSim trivialFiber [0] [1] none
      ((bisect_step (fiber_fires stepSim trivialFiber [0] [1] none))^[1] (0, 2)).1 = false ∧
    fiber_fires stepSim trivialFiber [0] [1] none
      ((bisect_step (fiber_fires stepSim trivialFiber [0] [1] none))^[1] (0, 2)).2 = true ∧
    ((bisect_step (fiber_fires stepSim trivialFiber [0] [1] none))^[1] (0, 2)).1 <
      ((bisect_step (fiber_fires stepSim trivialFiber [0] [1] none))^[1] (0, 2)).2 ∧
    ((bisect_step (fiber_fires stepSim trivialFiber [0] [1] none))^[2] (0, 2)).2 -
        ((bisect_step (fiber_fires stepSim trivialFiber [0] [1] none))^[2] (0, 2)).1 <
      ((bisect_step (fiber_fires stepSim trivialFiber [0] [1] none))^[1] (0, 2)).2 -
        ((bisect_step (fiber_fires stepSim trivialFiber [0] [1] none))^[1] (0, 2)).1 := by
  have h := bisection_loop_invariant stepSim trivialFiber [0] [1] 0 2 none
    (fiber_fires stepSim trivialFiber [0] [1] none) rfl
    (by norm_num [fiber_fires, test_scale, default_rec_idx, trivialFiber, stepSim,
      fires_of_trace, trace_max, DT, E_LEAK])
    (by norm_num [fiber_fires, test_scale, default_rec_idx, trivialFiber, stepSim,
      fires_of_trace, trace_max, DT, E_LEAK])
    (by norm_num)
  exact ⟨by norm_num [fiber_fires, test_scale, default_rec_idx, trivialFiber, stepSim,
      fires_of_trace, trace_max, DT, E_LEAK],
    by norm_num [fiber_fires, test_scale, default_rec_idx, trivialFiber, stepSim,
      fires_of_trace, trace_max, DT, E_LEAK],
    by norm_num, h.1 1 2, (h.2 1).1, (h.2 1).2.1, (h.2 1).2.2.1,
    by simpa using (h.2 1).2.2.2⟩

/-- Every chain segment starts with its node. -/
lemma chainFrom_cons (i k : ℕ) : ∃ t, chainFrom i k = (Role.node, i) :: t := by
  cases k
  · exact ⟨[], rfl⟩
  · exact ⟨_, rfl⟩

/-- The wiring loop produces exactly the consecutive pairs of the
anatomical chain, oriented parent-to-child. -/
lemma connections_eq_adjPairs :
    ∀ (k i : ℕ), ((List.range' i k).flatMap connGroup).map (fun c => (c.parent, c.child)) =
      adjPairs (chainFrom i k) := by
  intro k
  induction k with
  | zero => intro i; simp [chainFrom, adjPairs]
  | succ k ih =>
    intro i
    obtain ⟨t, ht⟩ := chainFrom_cons (i + 1) k
    rw [List.range'_succ, List.flatMap_cons, List.map_append, ih (i + 1)]
    rw [show chainFrom i (k + 1) = (Role.node, i) :: (Role.paranode, i) :: (Role.juxta, i) ::
      (Role.intern, i) :: chainFrom (i + 1) k from rfl, ht]
    simp [connGroup, adjPairs]

/-- Every identity in a chain segment starting at node `i` has index ≥ `i`. -/
lemma chainFrom_idx_le : ∀ (k i : ℕ), ∀ x ∈ chainFrom i k, i ≤ x.2 := by
  intro k
  induction k with
  | zero =>
    intro i x hx
    simp only [chainFrom, List.mem_singleton] at hx
    subst hx
    exact le_rfl
  | succ k ih =>
    intro i x hx
    simp only [chainFrom, List.mem_cons] at hx
    rcases hx with rfl | rfl | rfl | rfl | hx
    · exact le_rfl
    · exact le_rfl
    · exact le_rfl
    · exact le_rfl
    · exact le_trans (Nat.le_succ i) (ih (i + 1) x hx)

/-- The anatomical chain has no repeated compartment identity. -/
lemma chainFrom_nodup : ∀ (k i : ℕ), (chainFrom i k).Nodup := by
  intro k
  induction k with
  | zero => intro i; simp [chainFrom]
  | succ k ih =>
    intro i
    have hb : ∀ r : Role, (r, i) ∉ chainFrom (i + 1) k := by
      intro r hmem
      have h2 : i + 1 ≤ i := chainFrom_idx_le k (i + 1) _ hmem
      omega
    simp only [chainFrom, List.nodup_cons, List.mem_cons, not_or]
    refine ⟨⟨?_, ?_, ?_, hb _⟩, ⟨?_, ?_, hb _⟩, ⟨?_, hb _⟩, hb _, ih (i + 1)⟩ <;> simp

/-- The builder creates `n_nodes` node sections. -/
lemma make_MRG_fiber_nodes_length (d : ℚ) (n : ℕ) :
    (make_MRG_fiber d n).nodes.length = n := by
  simp [make_MRG_fiber]

/-- Identity `mid_idx = len(nodes)//2 = n_nodes//2`. -/
lemma make_MRG_fiber_mid_idx (d : ℚ) (n : ℕ) :
    (make_MRG_fiber d n).mid_idx = n / 2 := by
  simp [make_MRG_fiber]

/-- The builder's connections, as built by the wiring loop. -/
lemma make_MRG_fiber_connections (d : ℚ) (n : ℕ) :
    (make_MRG_fiber d n).connections = (List.range (n - 1)).flatMap connGroup := by
  simp [make_MRG_fiber]

/-- The node length is strictly positive. -/
lemma node_length_pos : (0:ℝ) < node_length_um := by norm_num [node_length_um]

/-- The internode length is strictly positive. -/
lemma internode_length_pos (d : ℚ) : (0:ℝ) < internode_length_from_diam d := by
  unfold internode_length_from_diam
  exact lt_of_lt_of_le (by norm_num) (le_max_left _ _)

/-- The paranode length is strictly positive. -/
lemma paranode_length_pos (d : ℚ) : (0:ℝ) < paranode_length_um d := by
  unfold paranode_length_um
  exact lt_of_lt_of_le (by norm_num) (le_max_left _ _)

/-- The juxtaparanode length is strictly positive. -/
lemma juxta_length_pos (d : ℚ) : (0:ℝ) < juxta_length_um d := by
  unfold juxta_length_um
  exact lt_of_lt_of_le (by norm_num) (le_max_left _ _)

/-- The internode length never falls below 50 µm. -/
lemma internode_length_floor (d : ℚ) : (50:ℝ) ≤ internode_length_from_diam d := by
  unfold internode_length_from_diam
  exact le_trans (by norm_num) (le_max_left _ _)

/-- The paranode length never falls below 1 µm. -/
lemma paranode_length_floor (d : ℚ) : (1:ℝ) ≤ paranode_length_um d := by
  unfold paranode_length_um
  exact le_trans (by norm_num) (le_max_left _ _)

/-- The juxtaparanode length never falls below 5 µm. -/
lemma juxta_length_floor (d : ℚ) : (5:ℝ) ≤ juxta_length_um d := by
  unfold juxta_length_um
  exact le_trans (by norm_num) (le_max_left _ _)

/-- C5: for every diameter d > 0 and node_count ≥ 2, the builder produces
exactly `node_count` nodes and `node_count - 1` each of
paranode/juxtaparanode/internode sections, every section's length is
strictly positive, and the `connect` calls are exactly the consecutive
pairs of the duplicate-free anatomical chain
node[i] → paranode[i] → juxta[i] → intern[i] → node[i+1] (childEnd 0 on
parentEnd 1, i.e. distal-end-to-proximal-end, with no branch points). -/
theorem make_MRG_fiber_structure (d : ℚ) (n : ℕ) (hd : 0 < d) (hn : 2 ≤ n) :
    ((make_MRG_fiber d n).nodes.length = n ∧
     (make_MRG_fiber d n).paranos.length = n - 1 ∧
     (make_MRG_fiber d n).juxtas.length = n - 1 ∧
     (make_MRG_fiber d n).interns.length = n - 1) ∧
    (∀ c ∈ (make_MRG_fiber d n).nodes ++ (make_MRG_fiber d n).paranos ++
        (make_MRG_fiber d n).juxtas ++ (make_MRG_fiber d n).interns, 0 < c.L) ∧
    ((make_MRG_fiber d n).connections.map (fun c => (c.parent, c.child)) =
        adjPairs (chainIds n) ∧
      (chainIds n).Nodup ∧
      ∀ c ∈ (make_MRG_fiber d n).connections, c.parentEnd = 1 ∧ c.childEnd = 0) := by
  refine ⟨⟨make_MRG_fiber_nodes_length d n, by simp [make_MRG_fiber],
    by simp [make_MRG_fiber], by simp [make_MRG_fiber]⟩, ?_, ?_,
    chainFrom_nodup (n - 1) 0, ?_⟩
  · intro c hc
    simp only [make_MRG_fiber, List.mem_append, List.mem_map, List.mem_range] at hc
    rcases hc with ((⟨i, _, rfl⟩ | ⟨i, _, rfl⟩) | ⟨i, _, rfl⟩) | ⟨i, _, rfl⟩
    · exact node_length_pos
    · exact paranode_length_pos d
    · exact juxta_length_pos d
    · exact internode_length_pos d
  · rw [make_MRG_fiber_connections, List.range_eq_range']
    exact connections_eq_adjPairs (n - 1) 0
  · intro c hc
    rw [make_MRG_fiber_connections] at hc
    simp only [List.mem_flatMap, List.mem_range, connGroup, List.mem_cons,
      List.not_mem_nil, or_false] at hc
    obtain ⟨i, _, hc⟩ := hc
    rcases hc with rfl | rfl | rfl | rfl
    · exact ⟨rfl, rfl⟩
    · exact ⟨rfl, rfl⟩
    · exact ⟨rfl, rfl⟩
    · exact ⟨rfl, rfl⟩

/-- C5 witness: diameter 1, two nodes: one group of each passive section,
positive paranode length, and the two-node chain wiring. -/
theorem make_MRG_fiber_structure_witness :
    (0:ℚ) < 1 ∧ 2 ≤ 2 ∧
    (make_MRG_fiber 1 2).nodes.length = 2 ∧
    (make_MRG_fiber 1 2).paranos.length = 1 ∧
    (make_MRG_fiber 1 2).juxtas.length = 1 ∧
    (make_MRG_fiber 1 2).interns.length = 1 ∧
    (0:ℝ) < (mkParanode 1 0).L ∧
    (make_MRG_fiber 1 2).connections.map (fun c => (c.parent, c.child)) =
      adjPairs (chainIds 2) ∧
    (chainIds 2).Nodup := by
  have h := make_MRG_fiber_structure 1 2 (by norm_num) (by norm_num)
  refine ⟨by norm_num, by norm_num, h.1.1, h.1.2.1, h.1.2.2.1, h.1.2.2.2, ?_,
    h.2.2.1, h.2.2.2.1⟩
  refine h.2.1 (mkParanode 1 0) ?_
  rw [show (make_MRG_fiber 1 2).nodes ++ (make_MRG_fiber 1 2).paranos ++
    (make_MRG_fiber 1 2).juxtas ++ (make_MRG_fiber 1 2).interns =
    [mkNode 1 0, mkNode 1 1, mkParanode 1 0, mkJuxta 1 0, mkIntern 1 0] from rfl]
  exact List.mem_cons_of_mem _ (List.mem_cons_of_mem _ (List.mem_cons_self _ _))

/-- C6 counterexample: at node_count = 1 the builder does not fail: it
returns a fiber holding one node section (so a compartment IS created) and
no other sections or connections — there is no InvalidTopology error
anywhere in `make_MRG_fiber`. -/
theorem make_MRG_fiber_small_count_counterexample :
    (make_MRG_fiber 1 1).nodes.length = 1 ∧
    (make_MRG_fiber 1 1).paranos = [] ∧
    (make_MRG_fiber 1 1).juxtas = [] ∧
    (make_MRG_fiber 1 1).interns = [] ∧
    (make_MRG_fiber 1 1).connections = [] :=
  ⟨rfl, rfl, rfl, rfl, rfl⟩

/-- C6 (amended): `make_MRG_fiber` performs no node-count validation; for
every node_count < 2 it returns normally a degenerate fiber with
`node_count` node compartments and no paranode/juxtaparanode/internode
compartments and no connections. -/
theorem make_MRG_fiber_no_validation (d : ℚ) (n : ℕ) (hn : n < 2) :
    (make_MRG_fiber d n).nodes.length = n ∧
    (make_MRG_fiber d n).paranos = [] ∧
    (make_MRG_fiber d n).juxtas = [] ∧
    (make_MRG_fiber d n).interns = [] ∧
    (make_MRG_fiber d n).connections = [] := by
  have h1 : n - 1 = 0 := by omega
  simp [make_MRG_fiber, h1]

/-- C6 witness: the amended statement evaluated at diameter 1,
node_count 1. -/
theorem make_MRG_fiber_no_validation_witness :
    1 < 2 ∧
    ((make_MRG_fiber 1 1).nodes.length = 1 ∧
     (make_MRG_fiber 1 1).paranos = [] ∧
     (make_MRG_fiber 1 1).juxtas = [] ∧
     (make_MRG_fiber 1 1).interns = [] ∧
     (make_MRG_fiber 1 1).connections = []) :=
  ⟨by norm_num, make_MRG_fiber_no_validation 1 1 (by norm_num)⟩

/-- C7: the four geometry rules compute exactly the stated formulas, all
outputs are strictly positive, `internode_length_from_diam` is
non-decreasing and never below 50, and the paranode/juxtaparanode rules
respect their floors of 1 and 5. -/
theorem geometry_rules_props (d : ℚ) (hd : 0 < d) :
    (node_length_um = 1 ∧
     internode_length_from_diam d = max 50.0 (100.0 * (d:ℝ)) ∧
     paranode_length_um d = max 1.0 (3.0 * Real.sqrt (d:ℝ)) ∧
     juxta_length_um d = max 5.0 (10.0 * Real.sqrt (d:ℝ))) ∧
    (0 < node_length_um ∧ 0 < internode_length_from_diam d ∧
     0 < paranode_length_um d ∧ 0 < juxta_length_um d) ∧
    (∀ d2 : ℚ, d ≤ d2 → internode_length_from_diam d ≤ internode_length_from_diam d2) ∧
    ((50:ℝ) ≤ internode_length_from_diam d ∧ (1:ℝ) ≤ paranode_length_um d ∧
     (5:ℝ) ≤ juxta_length_um d) := by
  refine ⟨⟨by norm_num [node_length_um], rfl, rfl, rfl⟩,
    ⟨node_length_pos, internode_length_pos d, paranode_length_pos d, juxta_length_pos d⟩,
    ?_, internode_length_floor d, paranode_length_floor d, juxta_length_floor d⟩
  intro d2 hle
  unfold internode_length_from_diam
  exact max_le_max le_rfl (mul_le_mul_of_nonneg_left (by exact_mod_cast hle) (by norm_num))

/-- C7 witness: the geometry properties evaluated at diameter 1 (and the
monotonicity instance from 1 to 2). -/
theorem geometry_rules_props_witness :
    (0:ℚ) < 1 ∧
    node_length_um = 1 ∧
    (0:ℝ) < paranode_length_um 1 ∧
    internode_length_from_diam 1 ≤ internode_length_from_diam 2 ∧
    (50:ℝ) ≤ internode_length_from_diam 1 ∧
    (1:ℝ) ≤ paranode_length_um 1 ∧
    (5:ℝ) ≤ juxta_length_um 1 := by
  have h := geometry_rules_props 1 (by norm_num)
  exact ⟨by norm_num, h.1.1, h.2.1.2.2.1, h.2.2.1 2 (by norm_num), h.2.2.2.1,
    h.2.2.2.2.1, h.2.2.2.2.2⟩

/-- Positivity of a left max-fold over the trace. -/
lemma foldl_max_pos : ∀ (l : List ℚ) (a : ℚ), 0 < l.foldl max a ↔ 0 < a ∨ ∃ v ∈ l, 0 < v := by
  intro l
  induction l with
  | nil => intro a; simp
  | cons b t ih =>
    intro a
    rw [List.foldl_cons, ih (max a b)]
    simp only [lt_max_iff, List.mem_cons]
    constructor
    · rintro ((ha | hb) | ⟨v, hv1, hv2⟩)
      · exact Or.inl ha
      · exact Or.inr ⟨b, Or.inl rfl, hb⟩
      · exact Or.inr ⟨v, Or.inr hv1, hv2⟩
    · rintro (ha | ⟨v, hv1 | hv1, hv2⟩)
      · exact Or.inl (Or.inl ha)
      · subst hv1; exact Or.inl (Or.inr hv2)
      · exact Or.inr ⟨v, hv1, hv2⟩

/-- Classification `Vm.max() > 0` holds exactly when some trace sample exceeds 0. -/
lemma fires_of_trace_iff (Vm : List ℚ) : fires_of_trace Vm = true ↔ ∃ v ∈ Vm, 0 < v := by
  cases Vm with
  | nil => simp [fires_of_trace, trace_max]
  | cons b t =>
    simp only [fires_of_trace, trace_max, decide_eq_true_eq, List.headD_cons]
    rw [foldl_max_pos]
    constructor
    · rintro (hb | hv)
      · exact ⟨b, List.mem_cons_self b t, hb⟩
      · exact hv
    · exact Or.inr

/-- C8: for a fiber built with `n` nodes, the trial predicate runs the
solver oracle with stimulation at node `n / 2`, waveform
`base_current_samples * scale`, stop time `time_samples[-1] + 5.0`, step
0.025, initial potential −80, default recording at node `n - 1`, and
classifies firing as the recorded trace's maximum exceeding 0 mV. -/
theorem test_scale_pipeline (sim : SimSpec → List ℚ) (d : ℚ) (n : ℕ)
    (tvec_ms base_waveform_nA : List ℚ) (s : ℚ) (hn : 1 ≤ n) :
    fiber_fires sim (make_MRG_fiber d n) tvec_ms base_waveform_nA none s =
      fires_of_trace (sim
        { stim_idx := n / 2,
          tvec := tvec_ms,
          ivec := base_waveform_nA.map (fun x => x * s),
          tstop := tvec_ms.getLastD 0 + 5.0,
          dt := 0.025,
          v_init := -80.0,
          rec_idx := n - 1 }) ∧
    (∀ Vm : List ℚ, (fires_of_trace Vm = true ↔ ∃ v ∈ Vm, 0 < v)) := by
  refine ⟨?_, fires_of_trace_iff⟩
  unfold fiber_fires test_scale default_rec_idx
  rw [make_MRG_fiber_mid_idx, make_MRG_fiber_nodes_length]
  rfl

/-- C8 witness: the pipeline equality at diameter 1, 2 nodes, scale 2, and
the firing classification on the one-sample trace `[1]`. -/
theorem test_scale_pipeline_witness :
    1 ≤ 2 ∧
    fiber_fires stepSim (make_MRG_fiber 1 2) [0] [1] none 2 =
      fires_of_trace (stepSim
        { stim_idx := 2 / 2,
          tvec := [0],
          ivec := [1].map (fun x => x * 2),
          tstop := ([0] : List ℚ).getLastD 0 + 5.0,
          dt := 0.025,
          v_init := -80.0,
          rec_idx := 2 - 1 }) ∧
    (fires_of_trace [1] = true ↔ ∃ v ∈ ([1] : List ℚ), 0 < v) := by
  have h := test_scale_pipeline stepSim 1 2 [0] [1] 2 (by norm_num)
  exact ⟨by norm_num, h.1, h.2 [1]⟩

/-- C9 counterexample: mismatched-length sample vectors ([0, 1] against
[0]) are not rejected: `attach_vector_stim` returns a normally configured
handle holding exactly those vectors — no InvalidWaveform failure exists
in the source. -/
theorem attach_vector_stim_counterexample :
    (attach_vector_stim (mkNode 1 0) [0, 1] [0]).vt = [0, 1] ∧
    (attach_vector_stim (mkNode 1 0) [0, 1] [0]).vi = [0] ∧
    (attach_vector_stim (mkNode 1 0) [0, 1] [0]).stim =
      { loc := 0.5, delay := 0, dur := 1e9 } ∧
    ([0, 1] : List ℚ).length ≠ ([0] : List ℚ).length :=
  ⟨rfl, rfl, rfl, by decide⟩

/-- C9 (amended): `attach_vector_stim` performs no input validation at all:
for every input — well-formed or not — it succeeds, returning a handle that
stores the given time and current vectors unchanged and an IClamp at
position 0.5 with delay 0 and duration 1e9. -/
theorem attach_vector_stim_no_validation (node_section : Compartment)
    (tvec_ms ivec_nA : List ℚ) :
    attach_vector_stim node_section tvec_ms ivec_nA =
      { sec := node_section, stim := { loc := 0.5, delay := 0, dur := 1e9 },
        vt := tvec_ms, vi := ivec_nA } := rfl

/-- C10: every section of the built fiber has diameter equal to the input
diameter, axial resistivity 70 and nseg = 1, and every passive section
(paranode, juxtaparanode, internode) shares cm = 0.02, g_pas = 1e-5 and
e_pas = −80. -/
theorem compartment_params_uniform (d : ℚ) (n : ℕ) :
    (∀ c ∈ (make_MRG_fiber d n).nodes ++ (make_MRG_fiber d n).paranos ++
        (make_MRG_fiber d n).juxtas ++ (make_MRG_fiber d n).interns,
      c.diam = d ∧ c.Ra = 70 ∧ c.nseg = 1) ∧
    (∀ c ∈ (make_MRG_fiber d n).paranos ++ (make_MRG_fiber d n).juxtas ++
        (make_MRG_fiber d n).interns,
      c.cm = 0.02 ∧ c.mech = Mechanism.pas 1e-5 (-80.0)) := by
  constructor
  · intro c hc
    simp only [make_MRG_fiber, List.mem_append, List.mem_map, List.mem_range] at hc
    rcases hc with ((⟨i, _, rfl⟩ | ⟨i, _, rfl⟩) | ⟨i, _, rfl⟩) | ⟨i, _, rfl⟩ <;>
      exact ⟨rfl, by norm_num [mkNode, mkParanode, mkJuxta, mkIntern, DEFAULT_RA], rfl⟩
  · intro c hc
    simp only [make_MRG_fiber, List.mem_append, List.mem_map, List.mem_range] at hc
    rcases hc with (⟨i, _, rfl⟩ | ⟨i, _, rfl⟩) | ⟨i, _, rfl⟩ <;> exact ⟨rfl, rfl⟩

/-- C10 witness: the parameter facts evaluated on the first node and the
first paranode of the 2-node, diameter-1 fiber. -/
theorem compartment_params_uniform_witness :
    mkNode 1 0 ∈ (make_MRG_fiber 1 2).nodes ++ (make_MRG_fiber 1 2).paranos ++
      (make_MRG_fiber 1 2).juxtas ++ (make_MRG_fiber 1 2).interns ∧
    ((mkNode 1 0).diam = 1 ∧ (mkNode 1 0).Ra = 70 ∧ (mkNode 1 0).nseg = 1) ∧
    mkParanode 1 0 ∈ (make_MRG_fiber 1 2).paranos ++ (make_MRG_fiber 1 2).juxtas ++
      (make_MRG_fiber 1 2).interns ∧
    ((mkParanode 1 0).cm = 0.02 ∧ (mkParanode 1 0).mech = Mechanism.pas 1e-5 (-80.0)) := by
  have hm1 : mkNode 1 0 ∈ (make_MRG_fiber 1 2).nodes ++ (make_MRG_fiber 1 2).paranos ++
      (make_MRG_fiber 1 2).juxtas ++ (make_MRG_fiber 1 2).interns := by
    rw [show (make_MRG_fiber 1 2).nodes ++ (make_MRG_fiber 1 2).paranos ++
      (make_MRG_fiber 1 2).juxtas ++ (make_MRG_fiber 1 2).interns =
      [mkNode 1 0, mkNode 1 1, mkParanode 1 0, mkJuxta 1 0, mkIntern 1 0] from rfl]
    exact List.mem_cons_self _ _
  have hm2 : mkParanode 1 0 ∈ (make_MRG_fiber 1 2).paranos ++ (make_MRG_fiber 1 2).juxtas ++
      (make_MRG_fiber 1 2).interns := by
    rw [show (make_MRG_fiber 1 2).paranos ++ (make_MRG_fiber 1 2).juxtas ++
      (make_MRG_fiber 1 2).interns = [mkParanode 1 0, mkJuxta 1 0, mkIntern 1 0] from rfl]
    exact List.mem_cons_self _ _
  exact ⟨hm1, (compartment_params_uniform 1 2).1 (mkNode 1 0) hm1, hm2,
    (compartment_params_uniform 1 2).2 (mkParanode 1 0) hm2⟩

end NeuronInit
